import Mathlib

/-!
Shallow embedding of the record-linkage core of the App-Facturacion-Costos
repository (src/src/data_matcher.py and the cedula search of
src/src/excel_processor.py), together with proofs settling the frozen claims
about its specification.

Modelling conventions:
* Python `str` values are modelled as Lean `String` / `List Char`; the
  character-level behaviour of `str.lower`, `str.upper`, `str.capitalize`,
  `re` word/whitespace classes is modelled for the repertoire the program
  works with: ASCII plus the accented letters named in the source
  (á é í ó ú ñ ü and their upper-case forms).
* Python `float` values are modelled as exact rationals `ℚ`
  (literals such as 0.7 and 0.8 become 7/10 and 4/5).
* Dictionaries coming from pandas rows are modelled as records whose fields
  are the strings the code builds from the row (a NaN cell becomes "").
-/

/-- The lower-casing table of the modelled repertoire: ASCII A-Z plus the
accented capitals occurring in Colombian names. -/
def lowerPairs : List (Char × Char) :=
  [('A', 'a'), ('B', 'b'), ('C', 'c'), ('D', 'd'), ('E', 'e'), ('F', 'f'),
   ('G', 'g'), ('H', 'h'), ('I', 'i'), ('J', 'j'), ('K', 'k'), ('L', 'l'),
   ('M', 'm'), ('N', 'n'), ('O', 'o'), ('P', 'p'), ('Q', 'q'), ('R', 'r'),
   ('S', 's'), ('T', 't'), ('U', 'u'), ('V', 'v'), ('W', 'w'), ('X', 'x'),
   ('Y', 'y'), ('Z', 'z'), ('Á', 'á'), ('É', 'é'), ('Í', 'í'), ('Ó', 'ó'),
   ('Ú', 'ú'), ('Ñ', 'ñ'), ('Ü', 'ü')]

/-- Python `str.lower` on the modelled repertoire; characters outside the
table are unchanged. -/
def pyLowerChar (c : Char) : Char :=
  match lowerPairs.find? (fun p => p.1 == c) with
  | some p => p.2
  | none => c

/-- Python `str.upper` on the modelled repertoire (the inverse table). -/
def pyUpperChar (c : Char) : Char :=
  match (lowerPairs.map (fun p => (p.2, p.1))).find? (fun p => p.1 == c) with
  | some p => p.2
  | none => c

/-- The accent-replacement dict of `DataMatcher.normalize_text`
(á→a, é→e, í→i, ó→o, ú→u, ñ→n, ü→u); it is applied after lower-casing, so
only lower-case keys occur, exactly as in the source dict. -/
def accentPairs : List (Char × Char) :=
  [('á', 'a'), ('é', 'e'), ('í', 'i'), ('ó', 'o'), ('ú', 'u'), ('ñ', 'n'),
   ('ü', 'u')]

/-- Apply the accent-replacement dict to one character. -/
def accentRepl (c : Char) : Char :=
  match accentPairs.find? (fun p => p.1 == c) with
  | some p => p.2
  | none => c

/-- The `\s` class of Python `re` (and the `str.strip` default set),
modelled on ASCII whitespace. -/
def pyIsWs (c : Char) : Bool :=
  c == ' ' || c == '\t' || c == '\n' || c == '\r' || c == '\x0b' || c == '\x0c'

/-- The `\w` class of Python `re` on the modelled repertoire:
ASCII alphanumerics, underscore, and the accented letters. -/
def isWordChar (c : Char) : Bool :=
  (decide ('a' ≤ c) && decide (c ≤ 'z')) ||
  (decide ('A' ≤ c) && decide (c ≤ 'Z')) ||
  (decide ('0' ≤ c) && decide (c ≤ '9')) || c == '_' ||
  c == 'á' || c == 'é' || c == 'í' || c == 'ó' || c == 'ú' || c == 'ñ' || c == 'ü' ||
  c == 'Á' || c == 'É' || c == 'Í' || c == 'Ó' || c == 'Ú' || c == 'Ñ' || c == 'Ü'

/-- Drop trailing characters of the Python `str.strip` whitespace set. -/
def dropTrailingWs (l : List Char) : List Char :=
  (l.reverse.dropWhile pyIsWs).reverse

/-- Python `str.strip()`: drop leading and trailing whitespace. -/
def stripBoth (l : List Char) : List Char :=
  dropTrailingWs (l.dropWhile pyIsWs)

/-- Replace any whitespace character by a plain space; together with
`squeeze` this models `re.sub(r"\s+", " ", text)`. -/
def wsToSpace (c : Char) : Char :=
  if pyIsWs c then ' ' else c

/-- Drop every space that immediately follows a kept space; `prev` is the
last kept character. -/
def squeezeAux : Char → List Char → List Char
  | _, [] => []
  | prev, c :: rest =>
    if prev == ' ' && c == ' ' then squeezeAux prev rest
    else c :: squeezeAux c rest

/-- Collapse runs of spaces to a single space. After `wsToSpace` has mapped
every whitespace character to a space, `squeeze ∘ map wsToSpace` is exactly
`re.sub(r"\s+", " ", ·)`: each maximal whitespace run becomes one space. -/
def squeeze : List Char → List Char
  | [] => []
  | c :: rest => c :: squeezeAux c rest

/-- The character-list pipeline of `DataMatcher.normalize_text`:
lower-case, strip, replace accented letters, collapse whitespace runs to
single spaces, delete every character that is neither a word character nor
whitespace, and strip again. -/
def normalizeChars (l : List Char) : List Char :=
  let t1 := stripBoth (l.map pyLowerChar)
  let t2 := t1.map accentRepl
  let t3 := squeeze (t2.map wsToSpace)
  let t4 := t3.filter (fun c => isWordChar c || pyIsWs c)
  stripBoth t4

/-- `DataMatcher.normalize_text`; empty input short-circuits to ""
(`if not text`). -/
def normalize_text (text : String) : String :=
  if text = "" then "" else String.mk (normalizeChars text.data)

example : normalize_text "José María Pérez" = "jose maria perez" := by decide
example : normalize_text "  Juan   Carlos  " = "juan carlos" := by decide
example : normalize_text "a ! b" = "a  b" := by decide
example : normalize_text (normalize_text "a ! b") = "a b" := by decide
example : normalize_text "!!!" = "" := by decide

/-! ### difflib.SequenceMatcher, modelled without junk

`calculate_name_similarity` calls
`difflib.SequenceMatcher(None, a, b).ratio()`. For sequences shorter than
200 elements (autojunk never fires) and no junk predicate, the matcher's
`find_longest_match` returns, among the longest matching blocks, the one
starting earliest in `a`, and among those the one starting earliest in `b`;
`get_matching_blocks` recurses on the pieces left and right of that block,
and `ratio` is `2*M/T` with `M` the total size of matching blocks and `T`
the sum of the lengths (1 when `T = 0`). The fold below scans candidate
block starts in exactly that preference order (ascending `i`, then
ascending `j`, updating only on strictly larger size), so it returns the
same block as difflib. -/

/-- Length of the common run starting at the heads of two lists. -/
def commonRun : List Char → List Char → Nat
  | a :: as, b :: bs => if a == b then commonRun as bs + 1 else 0
  | _, _ => 0

/-- The longest matching block of two sequences: `(i, j, k)` with
`a[i:i+k] = b[j:j+k]`, `k` maximal, ties broken by least `i`, then least
`j` — difflib's `find_longest_match` with no junk. -/
def longestMatch (a b : List Char) : Nat × Nat × Nat :=
  (List.range a.length).foldl
    (fun best i =>
      (List.range b.length).foldl
        (fun best j =>
          let k := commonRun (a.drop i) (b.drop j)
          if best.2.2 < k then (i, j, k) else best)
        best)
    (0, 0, 0)

/-- Total size of difflib's matching blocks: recurse on the longest match
and the slices to its left and right. `fuel` only bounds the recursion
depth: every recursive call strictly decreases the combined length of the
two slices, so any fuel at least that combined length computes the true
total (see `matchTotal`). -/
def matchTotalF : Nat → List Char → List Char → Nat
  | 0, _, _ => 0
  | fuel + 1, a, b =>
    let t := longestMatch a b
    if t.2.2 = 0 then 0
    else
      matchTotalF fuel (a.take t.1) (b.take t.2.1) + t.2.2 +
        matchTotalF fuel (a.drop (t.1 + t.2.2)) (b.drop (t.2.1 + t.2.2))

/-- Total matched characters of `difflib.SequenceMatcher(None, a, b)`. -/
def matchTotal (a b : List Char) : Nat :=
  matchTotalF (a.length + b.length) a b

/-- `difflib.SequenceMatcher(None, a, b).ratio() = 2*M/T` (1 when both
sequences are empty). The exact rational `2*M/T` is written `mkRat` so that
it evaluates inside the kernel. -/
def seq_similarity (a b : List Char) : ℚ :=
  if a.length + b.length = 0 then 1
  else mkRat (2 * (matchTotal a b : Int)) (a.length + b.length)

/-! ### calculate_name_similarity -/

/-- Python `str.split()` with no argument: split on whitespace runs,
producing no empty tokens. `acc` holds the current token reversed. -/
def splitWordsAux : List Char → List Char → List (List Char)
  | [], acc => if acc.isEmpty then [] else [acc.reverse]
  | c :: rest, acc =>
    if pyIsWs c then
      if acc.isEmpty then splitWordsAux rest []
      else acc.reverse :: splitWordsAux rest []
    else splitWordsAux rest (c :: acc)

/-- Python `str.split()` with no argument. -/
def splitWords (l : List Char) : List (List Char) :=
  splitWordsAux l []

/-- True when `pat` is an initial segment of `l`. -/
def leadsWith : List Char → List Char → Bool
  | [], _ => true
  | _ :: _, [] => false
  | a :: as, b :: bs => a == b && leadsWith as bs

/-- Python `str.find`: index of the first occurrence of `pat` in `l`
(`none` when absent; the empty pattern is found at 0). -/
def findSub : List Char → List Char → Option Nat
  | pat, [] => if pat.isEmpty then some 0 else none
  | pat, c :: rest =>
    if leadsWith pat (c :: rest) then some 0
    else (findSub pat rest).map (· + 1)

/-- Python `pat in l` substring test. -/
def containsSub (pat l : List Char) : Bool :=
  (findSub pat l).isSome

/-- The token-set (Jaccard) component of `calculate_name_similarity`,
lines 85-94 of data_matcher.py: split both normalized names into token
sets; 0 if either set is empty, else |∩|/|∪| (0 if the union is empty). -/
def word_similarity (n1 n2 : String) : ℚ :=
  let words1 : Finset String := ((splitWords n1.data).map String.mk).toFinset
  let words2 : Finset String := ((splitWords n2.data).map String.mk).toFinset
  if words1.card = 0 ∨ words2.card = 0 then 0
  else
    let inter := (words1 ∩ words2).card
    let union := (words1 ∪ words2).card
    if 0 < union then mkRat (inter : Int) union else 0

/-- The containment component of `calculate_name_similarity`, lines 96-99:
flat 0.8 when either normalized name is a substring of the other. -/
def contains_similarity (n1 n2 : String) : ℚ :=
  if containsSub n1.data n2.data || containsSub n2.data n1.data then mkRat 4 5 else 0

/-- Python `max` on two values: the first argument wins ties. Written with
an explicit comparison so that it evaluates inside the kernel. -/
def pyMax (x y : ℚ) : ℚ :=
  if y ≤ x then x else y

/-- `DataMatcher.calculate_name_similarity`: 0 on an empty input, 1 when
the normalized forms coincide, else the maximum of the sequence, token-set
and containment scores (`max(seq, word, contains)` associated as in
Python's `max`). -/
def calculate_name_similarity (name1 name2 : String) : ℚ :=
  if name1 = "" ∨ name2 = "" then 0
  else
    let norm_name1 := normalize_text name1
    let norm_name2 := normalize_text name2
    if norm_name1 = norm_name2 then 1
    else
      pyMax (pyMax (seq_similarity norm_name1.data norm_name2.data)
            (word_similarity norm_name1 norm_name2))
        (contains_similarity norm_name1 norm_name2)

example : matchTotal "cabc".data "bcac".data = 3 := by decide
example : matchTotal "bcac".data "cabc".data = 2 := by decide
example : calculate_name_similarity "cabc" "bcac" = mkRat 3 4 := by decide
example : calculate_name_similarity "bcac" "cabc" = mkRat 1 2 := by decide
example : calculate_name_similarity "a" "b" = 0 := by decide
example : calculate_name_similarity "!!!" "???" = 1 := by decide

/-! ### format_name (the name reconstructor) -/

/-- Python `str.capitalize()`: first character upper-cased, the rest
lower-cased. -/
def capitalizePy (l : List Char) : List Char :=
  match l with
  | [] => []
  | c :: rest => pyUpperChar c :: rest.map pyLowerChar

/-- The idiom `" ".join(word.capitalize() for word in s.split())` used
throughout `format_name`. -/
def capWords (l : List Char) : List Char :=
  List.intercalate [' '] ((splitWords l).map capitalizePy)

/-- Stable insertion preserving left-to-right order among equal lengths:
the inserted element goes before the first element that is not longer. -/
def insLenDesc (x : String) : List String → List String
  | [] => [x]
  | y :: ys => if y.length ≤ x.length then x :: y :: ys else y :: insLenDesc x ys

/-- Python `sorted(strings, key=len, reverse=True)`: stable sort by length,
longest first. -/
def sortLenDesc (l : List String) : List String :=
  l.foldr insLenDesc []

/-- `apellidos_comunes` of `DataMatcher.format_name` (line order as in the
source). -/
def apellidos_comunes : List String :=
  ["RODRIGUEZ", "MARTINEZ", "GARCIA", "LOPEZ", "GONZALEZ", "HERNANDEZ",
   "PEREZ", "SANCHEZ", "RAMIREZ", "TORRES", "FLORES", "RIVERA",
   "GOMEZ", "DIAZ", "MORALES", "CASTRO", "ORTIZ", "RUBIO", "MENDOZA",
   "VARGAS", "JIMENEZ", "HERRERA", "GUTIERREZ", "RUIZ", "VALENCIA",
   "CARDENAS", "ROJAS", "SILVA", "OSPINA", "MARIN", "CASTAÑO",
   "RESTREPO", "SUAREZ", "AGUILAR", "MOLINA", "CONTRERAS", "GUERRERO",
   "TRUJILLO", "CORREA", "MEDINA", "MORENO", "VEGA", "ROMERO"]

/-- `nombres_comunes` of `DataMatcher.format_name`. -/
def nombres_comunes : List String :=
  ["MARIA", "JUAN", "CARLOS", "ANA", "LUIS", "CARMEN", "JOSE",
   "JORGE", "FRANCISCO", "ANTONIO", "MANUEL", "RAFAEL", "MIGUEL",
   "DANIEL", "DAVID", "PEDRO", "ALEJANDRO", "FERNANDO", "SERGIO",
   "DIEGO", "ANDREA", "CLAUDIA", "SANDRA", "PATRICIA", "MONICA",
   "GLORIA", "MARTHA", "ROSA", "ADRIANA", "BEATRIZ", "CLARA",
   "ELENA", "ISABEL", "LAURA", "LUCIA", "NANCY", "OLGA", "PILAR",
   "MARCELA", "AMPARO", "ESPERANZA", "LUZ", "BLANCA", "EDUARDO"]

/-- Python `str.find` result as the source uses it: the index, or -1 when
the pattern does not occur. -/
def pyFind (l pat : List Char) : Int :=
  match findSub pat l with
  | some p => (p : Int)
  | none => -1

/-- The surname pass of `format_name` (lines 286-290): for each surname in
length-descending order, if it occurs in the working text, record
`(position in working text, surname)` and blank the first occurrence out
of the working text with spaces (`str.replace(ap, " "*len(ap), 1)`).
Returns the hits in scan order together with the final working text. -/
def scan_apellidos : List String → List Char → List (Int × String) × List Char
  | [], t => ([], t)
  | ap :: rest, t =>
    match findSub ap.data t with
    | some pos =>
      let blanked := t.take pos ++ List.replicate ap.data.length ' ' ++
        t.drop (pos + ap.data.length)
      let r := scan_apellidos rest blanked
      (((pos : Int), ap) :: r.1, r.2)
    | none => scan_apellidos rest t

/-- The given-name pass of `format_name` (lines 293-296): for each name in
length-descending order, the OCCURRENCE test is made against the blanked
working text `texto`, while the recorded position is
`name.find(nombre)` on the ORIGINAL text. No blanking happens here. -/
def scan_nombres : List String → List Char → List Char → List (Int × String)
  | [], _, _ => []
  | n :: rest, original, texto =>
    if containsSub n.data texto then
      (pyFind original n.data, n) :: scan_nombres rest original texto
    else scan_nombres rest original texto

/-- Lexicographic code-point comparison of character lists (Python `str`
comparison). -/
def charsLe : List Char → List Char → Bool
  | [], _ => true
  | _ :: _, [] => false
  | a :: as, b :: bs => a < b || (a == b && charsLe as bs)

/-- Python tuple comparison on `(position, string)` pairs. -/
def pairLe (x y : Int × String) : Bool :=
  decide (x.1 < y.1) || (x.1 == y.1 && charsLe x.2.data y.2.data)

/-- Stable insertion for `sortPairs`: the inserted element goes before the
first element it compares `≤` to. -/
def insPair (x : Int × String) : List (Int × String) → List (Int × String)
  | [] => [x]
  | y :: ys => if pairLe x y then x :: y :: ys else y :: insPair x ys

/-- Python `list.sort()` on `(position, string)` tuples (stable; the hit
lists never contain two pairs with the same position, so any correct sort
agrees with Timsort here). -/
def sortPairs (l : List (Int × String)) : List (Int × String) :=
  l.foldr insPair []

/-- The vowel test `name[i] in "AEIOU"` of the midpoint heuristic. -/
def isVowelUpper (c : Char) : Bool :=
  c == 'A' || c == 'E' || c == 'I' || c == 'O' || c == 'U'

/-- The literal lookup table of `format_name` (lines 314-333), reached only
when the dictionary phase found no surname or no given name. -/
def literalTable (name : String) : Option String :=
  if name = "TRUJILLOPEREZMARIACLARA" then some "Maria Clara Trujillo Perez"
  else if name = "GARCIALOPEZMARIAFERNANDA" then some "Maria Fernanda Garcia Lopez"
  else if name = "RODRIGUEZSILVACARLOSYEDUARDO" then some "Carlos Eduardo Rodriguez Silva"
  else if name = "HERNANDEZGOMEZANALUCIA" then some "Ana Lucia Hernandez Gomez"
  else if name = "TORRESVARGASLUISMIGUEL" then some "Luis Miguel Torres Vargas"
  else if name = "MORALESCASTROCARMENELENA" then some "Carmen Elena Morales Castro"
  else if name = "RUIZMENDOZADIEGOALEJANDRO" then some "Diego Alejandro Ruiz Mendoza"
  else if name = "JIMENEZROJASSANDRAPATRICIA" then some "Sandra Patricia Jimenez Rojas"
  else if name = "CASTILLOHERRERAFERNANDOJOSE" then some "Fernando Jose Castillo Herrera"
  else if name = "RAMIREZORTEGACLAUDIAISABEL" then some "Claudia Isabel Ramirez Ortega"
  else none

/-- `DataMatcher.format_name`: empty input yields ""; input containing a
space is split/capitalized/re-joined; otherwise the input is upper-cased
and stripped, the surname and given-name dictionaries are scanned, and if
both produced hits the result is the position-sorted given names followed
by the position-sorted surnames, title-cased. Failing that, the literal
table is consulted; failing that, for inputs longer than 8 characters a
midpoint cut (preferring a vowel-consonant boundary within ±3 of the
midpoint) splits the input into `part2 part1`; otherwise the input is
merely capitalized. -/
def format_name (name : String) : String :=
  if name = "" then ""
  else if name.data.contains ' ' then String.mk (capWords name.data)
  else
    let nameU : List Char := stripBoth (name.data.map pyUpperChar)
    let scanned := scan_apellidos (sortLenDesc apellidos_comunes) nameU
    let apellidos_encontrados := scanned.1
    let nombres_encontrados := scan_nombres (sortLenDesc nombres_comunes) nameU scanned.2
    if apellidos_encontrados ≠ [] ∧ nombres_encontrados ≠ [] then
      let apellidos := (sortPairs apellidos_encontrados).map (fun h => h.2.data)
      let nombres := (sortPairs nombres_encontrados).map (fun h => h.2.data)
      let resultado := List.intercalate [' '] (nombres ++ apellidos)
      String.mk (capWords resultado)
    else
      match literalTable (String.mk nameU) with
      | some v => v
      | none =>
        if 8 < nameU.length then
          let mitad := nameU.length / 2
          let lo := mitad - 3
          let hi := min nameU.length (mitad + 4)
          let mejor_corte :=
            match (List.range' lo (hi - lo)).find?
                (fun i => decide (i < nameU.length - 1) &&
                  isVowelUpper (nameU.getD i ' ') &&
                  !isVowelUpper (nameU.getD (i + 1) ' ')) with
            | some i => i + 1
            | none => mitad
          let parte1 := nameU.take mejor_corte
          let parte2 := nameU.drop mejor_corte
          if parte1 ≠ [] ∧ parte2 ≠ [] then
            String.mk (capWords (parte2 ++ [' '] ++ parte1))
          else String.mk (capitalizePy nameU)
        else String.mk (capitalizePy nameU)

example : format_name "TRUJILLOPEREZMARIACLARA" = "Maria Clara Trujillo Perez" := by decide
example : format_name "GARCIALOPEZMARIAFERNANDA" = "Maria Garcia Lopez" := by decide
example : format_name "CASTROSA" = "Castrosa" := by decide
example : format_name "maria clara" = "Maria Clara" := by decide
example : format_name "XXYYZZWWQQ" = "Zwwqq Xxyyz" := by decide
example : format_name "ABCDEFGHIJK" = "Fghijk Abcde" := by decide
example : format_name "HERNANDEZGOMEZANALUCIA" = "Ana Lucia Hernandez Gomez" := by decide
example : format_name "RODRIGUEZSILVACARLOSYEDUARDO" = "Carlos Eduardo Rodriguez Silva" := by decide
example : format_name "CASTILLOHERRERAFERNANDOJOSE" = "Fernando Jose Herrera" := by decide
example : format_name "  pedro   PICAPIEDRA  " = "Pedro Picapiedra" := by decide
example : format_name "mCdONALD xY" = "Mcdonald Xy" := by decide
example : format_name "PEPITO" = "Pepito" := by decide

/-! ### The record linker -/

/-- A record extracted from the PDF (`pdf_employees` entries): a dict with
keys `nombre` and `cedula`; a missing or `None` value and the empty string
behave identically in every use (`if not emp.get(...)`), so both are
modelled as "". -/
structure SourceRec where
  nombre : String
  cedula : String
deriving DecidableEq

/-- A row of the Excel registry as the code materializes it: the three
string fields built from the detected columns (a NaN cell becomes ""). -/
structure RegRec where
  nombre : String
  cedula : String
  centro_costo : String
deriving DecidableEq

/-- A matched employee as built by `match_by_cedula` / `match_by_name`:
keys `nombre_excel`, `cedula`, `centro_costo`, `match_method` (the string
"cedula" or "nombre") and `confidence`. -/
structure MatchedEmp where
  nombre_excel : String
  cedula : String
  centro_costo : String
  match_method : String
  confidence : ℚ
deriving DecidableEq

/-- Strip every non-digit character (`re.sub(r"[^\d]", "", str(c))`),
with `\d` modelled as ASCII digits. -/
def clean_cedula (s : String) : String :=
  String.mk (s.data.filter Char.isDigit)

/-- `ExcelProcessor.search_by_cedula`: all registry rows whose cleaned
cedula equals the cleaned search cedula, in row order. -/
def search_by_cedula (cedula : String) (registry : List RegRec) : List RegRec :=
  registry.filter (fun r => clean_cedula r.cedula == clean_cedula cedula)

/-- The matched dict built at lines 126-132 of data_matcher.py: name and
cost center from the Excel row, cedula from the PDF record. -/
def mkCedulaMatch (p : SourceRec) (r : RegRec) : MatchedEmp :=
  { nombre_excel := r.nombre, cedula := p.cedula, centro_costo := r.centro_costo,
    match_method := "cedula", confidence := 1 }

/-- `DataMatcher.match_by_cedula`: records with non-empty cedula are looked
up via `search_by_cedula`; the first hit (`excel_results[0]`) yields a
match with confidence 1.0, otherwise the record joins the unmatched list.
Both output lists preserve the input order. -/
def match_by_cedula (registry : List RegRec) :
    List SourceRec → List MatchedEmp × List SourceRec
  | [] => ([], [])
  | p :: rest =>
    let r := match_by_cedula registry rest
    if p.cedula ≠ "" then
      match search_by_cedula p.cedula registry with
      | excel_emp :: _ => (mkCedulaMatch p excel_emp :: r.1, r.2)
      | [] => (r.1, p :: r.2)
    else (r.1, p :: r.2)

/-- The best-candidate fold of `match_by_name` (lines 164-177): scan the
registry keeping the record with the strictly highest similarity
(`similarity > best_similarity`), skipping rows with empty name; the
accumulator starts at `(None, 0.0)`. -/
def best_for (n : String) (registry : List RegRec) : Option RegRec × ℚ :=
  registry.foldl
    (fun acc excel_emp =>
      if excel_emp.nombre ≠ "" then
        let similarity := calculate_name_similarity n excel_emp.nombre
        if acc.2 < similarity then (some excel_emp, similarity) else acc
      else acc)
    (none, 0)

/-- The matched dict built at lines 181-187: all three data fields from the
winning Excel row, method "nombre", confidence = best similarity. -/
def mkNombreMatch (best : RegRec) (conf : ℚ) : MatchedEmp :=
  { nombre_excel := best.nombre, cedula := best.cedula,
    centro_costo := best.centro_costo, match_method := "nombre",
    confidence := conf }

/-- `DataMatcher.match_by_name`: records with empty name go straight to
unmatched; otherwise the best registry candidate is kept and a match is
emitted when a candidate exists (`if best_match`) and its similarity
reaches `min_similarity`. Both output lists preserve the input order. -/
def match_by_name (registry : List RegRec) (min_similarity : ℚ) :
    List SourceRec → List MatchedEmp × List SourceRec
  | [] => ([], [])
  | p :: rest =>
    let r := match_by_name registry min_similarity rest
    if p.nombre = "" then (r.1, p :: r.2)
    else
      let best := best_for p.nombre registry
      match best.1 with
      | some best_match =>
        if min_similarity ≤ best.2 then (mkNombreMatch best_match best.2 :: r.1, r.2)
        else (r.1, p :: r.2)
      | none => (r.1, p :: r.2)

/-- The result dictionary of `DataMatcher.perform_full_matching`:
the combined match list, the final unmatched list, and the `statistics`
sub-dict. -/
structure MatchRunResult where
  matched : List MatchedEmp
  unmatched : List SourceRec
  total_pdf_employees : ℕ
  matched_by_cedula : ℕ
  matched_by_name : ℕ
  total_matched : ℕ
  total_unmatched : ℕ
  match_rate : ℚ

/-- `DataMatcher.perform_full_matching`: cedula pass first, name pass on
its remainder, statistics as at lines 226-233 (`match_rate` is
`len(all_matched)/len(pdf_employees)` guarded by the truthiness of the
input list). The extraction collaborator is a parameter
(`pdf_employees`), as is the registry. -/
def perform_full_matching (pdf_employees : List SourceRec)
    (registry : List RegRec) (min_name_similarity : ℚ) : MatchRunResult :=
  let cedPass := match_by_cedula registry pdf_employees
  let namePass := match_by_name registry min_name_similarity cedPass.2
  let all_matched := cedPass.1 ++ namePass.1
  { matched := all_matched
    unmatched := namePass.2
    total_pdf_employees := pdf_employees.length
    matched_by_cedula := cedPass.1.length
    matched_by_name := namePass.1.length
    total_matched := all_matched.length
    total_unmatched := namePass.2.length
    match_rate :=
      if pdf_employees.isEmpty then 0
      else mkRat (all_matched.length : Int) pdf_employees.length }

/-! ### Consolidation view -/

/-- A row of the final consolidated table. -/
structure ConsolidatedRec where
  nombre : String
  cedula : String
  centro_costo : String
  estado_match : String
  confianza : String
deriving DecidableEq

/-- Two-decimal formatting of a confidence, modelling `f"{c:.2f}"` for the
non-negative exact rationals used here: `m = round(q*100)` computed as
`⌊(200*num + den) / (2*den)⌋` (rounding half up; the program's confidences
never sit at a rounding tie), rendered as `m/100 "." m%100`. -/
def formatTwoDec (q : ℚ) : String :=
  let m : ℕ := (200 * q.num.toNat + q.den) / (2 * q.den)
  String.mk ((Nat.toDigits 10 (m / 100)) ++ '.' ::
    (if m % 100 < 10 then '0' :: Nat.toDigits 10 (m % 100)
     else Nat.toDigits 10 (m % 100)))

/-- `DataMatcher.get_consolidated_data` applied to a matched-employee list:
one output row per match, in order; the name is `format_name` of the Excel
name (empty if the Excel name is empty — the PDF name is never consulted:
`MatchedEmp` does not even carry one), the status label embeds the match
method, and the confidence is rendered with two decimals. -/
def get_consolidated_data (matched_employees : List MatchedEmp) :
    List ConsolidatedRec :=
  matched_employees.map (fun emp =>
    { nombre := if emp.nombre_excel ≠ "" then format_name emp.nombre_excel else ""
      cedula := emp.cedula
      centro_costo := emp.centro_costo
      estado_match := "Encontrado (" ++ emp.match_method ++ ")"
      confianza := formatTwoDec emp.confidence })

example :
    match_by_cedula [⟨"PEREZ JUAN", "12.345.678", "VENTAS"⟩] [⟨"", "12345678"⟩] =
      ([⟨"PEREZ JUAN", "12345678", "VENTAS", "cedula", 1⟩], []) := by decide
example : formatTwoDec 1 = "1.00" := by decide
example : formatTwoDec (mkRat 3 4) = "0.75" := by decide
example : formatTwoDec (mkRat 1 2) = "0.50" := by decide

/-! ## Claim C1 -/

/-- C1, counterexample: `format_name "GARCIALOPEZMARIAFERNANDA"` is not the
value "Maria Fernanda Garcia Lopez" stated by the claim (the dictionary
phase finds GARCIA, LOPEZ and MARIA and preempts the literal table, whose
entry for this very string is dead code; FERNANDA is not in the given-name
dictionary). -/
theorem c1_counterexample :
    format_name "GARCIALOPEZMARIAFERNANDA" ≠ "Maria Fernanda Garcia Lopez" := by
  decide

/-- C1, amended: the first hardcoded literal case holds (though it is
produced by the dictionary phase, not the literal table), while the second
input yields "Maria Garcia Lopez" because the dictionary phase preempts
the literal table. -/
theorem c1_amended :
    format_name "TRUJILLOPEREZMARIACLARA" = "Maria Clara Trujillo Perez" ∧
    format_name "GARCIALOPEZMARIAFERNANDA" = "Maria Garcia Lopez" := by
  exact ⟨by decide, by decide⟩

/-! ## Claim C2 -/

/-- C2, counterexample: on the space-free input "CASTROSA" the given name
"ROSA" occurs in the original text (at position 4, overlapping the matched
surname CASTRO), yet the given-name scan of the dictionary phase collects
no hit at all, because the occurrence test is made against the blanked
working copy. -/
theorem c2_counterexample :
    "ROSA" ∈ nombres_comunes ∧
    containsSub "ROSA".data "CASTROSA".data = true ∧
    "CASTROSA".data.contains ' ' = false ∧
    scan_nombres (sortLenDesc nombres_comunes) "CASTROSA".data
      (scan_apellidos (sortLenDesc apellidos_comunes) "CASTROSA".data).2 = [] := by
  decide

/-- C2, amended: in the given-name phase the OCCURRENCE test is made
against the blanked working copy, not the original text; only the recorded
position comes from the original (first occurrence there). Precisely, a
pair `(p, n)` is collected iff `n` is in the dictionary, `n` occurs in the
blanked copy, and `p` is `str.find` of `n` in the original. -/
theorem c2_amended (dict : List String) (original texto : List Char)
    (p : Int) (n : String) :
    (p, n) ∈ scan_nombres dict original texto ↔
      n ∈ dict ∧ containsSub n.data texto = true ∧ p = pyFind original n.data := by
  induction dict with
  | nil => simp [scan_nombres]
  | cons d rest ih =>
    by_cases hc : containsSub d.data texto = true
    · simp only [scan_nombres, hc, if_pos, List.mem_cons, ih, Prod.mk.injEq]
      constructor
      · rintro (⟨hp, rfl⟩ | ⟨hm, hcc, hp⟩)
        · exact ⟨Or.inl rfl, hc, hp⟩
        · exact ⟨Or.inr hm, hcc, hp⟩
      · rintro ⟨rfl | hm, hcc, hp⟩
        · exact Or.inl ⟨hp, rfl⟩
        · exact Or.inr ⟨hm, hcc, hp⟩
    · simp only [scan_nombres, hc, if_neg, Bool.not_eq_true, List.mem_cons, ih]
      constructor
      · rintro ⟨hm, hcc, hp⟩
        exact ⟨Or.inr hm, hcc, hp⟩
      · rintro ⟨hm | hm, hcc, hp⟩
        · exact absurd (hm ▸ hcc) (by simpa using hc)
        · exact ⟨hm, hcc, hp⟩

/-- C2 witness: instantiating the amended characterization recovers a
concrete hit. -/
theorem c2_witness :
    ((4 : Int), "ROSA") ∈ scan_nombres ["ROSA"] "CASTROSA".data "ROSA".data :=
  (c2_amended ["ROSA"] "CASTROSA".data "ROSA".data 4 "ROSA").mpr
    ⟨by decide, by decide, by decide⟩

/-! ## Claim C9 -/

/-- The token-set (Jaccard) component is symmetric. -/
theorem word_similarity_comm (a b : String) :
    word_similarity a b = word_similarity b a := by
  unfold word_similarity
  dsimp only
  rw [Finset.inter_comm, Finset.union_comm]
  simp only [or_comm]

/-- The containment component is symmetric. -/
theorem contains_similarity_comm (a b : String) :
    contains_similarity a b = contains_similarity b a := by
  unfold contains_similarity
  rw [Bool.or_comm]

/-- C9, amended: the token-set and containment components are symmetric
(and so are the empty-input and equal-normalization short circuits), but
the sequence component — difflib's ratio — is not, so the overall
similarity is not symmetric; see the counterexample. -/
theorem c9_amended (a b : String) :
    word_similarity a b = word_similarity b a ∧
    contains_similarity a b = contains_similarity b a :=
  ⟨word_similarity_comm a b, contains_similarity_comm a b⟩

/-- C9, counterexample: similarity is not symmetric. difflib's matcher on
("cabc", "bcac") picks the block "ca" and still matches a final "c"
(ratio 3/4), while on ("bcac", "cabc") it picks "bc", after which nothing
on either side can match (ratio 1/2); the token-set and containment
components are 0 for both orders. -/
theorem c9_counterexample :
    calculate_name_similarity "cabc" "bcac" ≠
      calculate_name_similarity "bcac" "cabc" := by
  decide

/-! ## Claim C7 and its bound lemmas -/

/-- Fold invariant with access to membership of the traversed element. -/
theorem foldl_preserve {α β : Type} (P : β → Prop) (f : β → α → β)
    (l : List α) (b : β) (hb : P b)
    (hf : ∀ b a, a ∈ l → P b → P (f b a)) : P (l.foldl f b) := by
  induction l generalizing b with
  | nil => exact hb
  | cons a t ih =>
    exact ih (f b a) (hf b a (List.mem_cons_self a t) hb)
      (fun b2 a2 h2 hb2 => hf b2 a2 (List.mem_cons_of_mem a h2) hb2)

theorem commonRun_le_left (a : List Char) : ∀ b, commonRun a b ≤ a.length := by
  induction a with
  | nil => intro b; cases b <;> simp [commonRun]
  | cons x xs ih =>
    intro b
    cases b with
    | nil => simp [commonRun]
    | cons y ys =>
      by_cases h : x == y <;> simp [commonRun, h]
      exact ih ys

theorem commonRun_le_right (a : List Char) : ∀ b, commonRun a b ≤ b.length := by
  induction a with
  | nil => intro b; cases b <;> simp [commonRun]
  | cons x xs ih =>
    intro b
    cases b with
    | nil => simp [commonRun]
    | cons y ys =>
      by_cases h : x == y <;> simp [commonRun, h]
      exact ih ys

/-- The longest-match block fits inside both sequences. -/
theorem longestMatch_bounds (a b : List Char) :
    (longestMatch a b).1 + (longestMatch a b).2.2 ≤ a.length ∧
    (longestMatch a b).2.1 + (longestMatch a b).2.2 ≤ b.length := by
  unfold longestMatch
  apply foldl_preserve
    (P := fun t : Nat × Nat × Nat =>
      t.1 + t.2.2 ≤ a.length ∧ t.2.1 + t.2.2 ≤ b.length)
  · simp
  · intro best i hi hbest
    apply foldl_preserve
      (P := fun t : Nat × Nat × Nat =>
        t.1 + t.2.2 ≤ a.length ∧ t.2.1 + t.2.2 ≤ b.length)
    · exact hbest
    · intro best2 j hj hbest2
      dsimp only
      split
      · have hia : i < a.length := List.mem_range.mp hi
        have hjb : j < b.length := List.mem_range.mp hj
        have h1 := commonRun_le_left (a.drop i) (b.drop j)
        have h2 := commonRun_le_right (a.drop i) (b.drop j)
        simp only [List.length_drop] at h1 h2
        refine ⟨?_, ?_⟩ <;> dsimp only <;> omega
      · exact hbest2

/-- The total matched size never exceeds either sequence length. -/
theorem matchTotalF_le (fuel : Nat) :
    ∀ a b : List Char,
      matchTotalF fuel a b ≤ a.length ∧ matchTotalF fuel a b ≤ b.length := by
  induction fuel with
  | zero => intro a b; simp [matchTotalF]
  | succ n ih =>
    intro a b
    rw [matchTotalF]
    by_cases hz : (longestMatch a b).2.2 = 0
    · simp [hz]
    · simp only [hz, if_neg, ite_false]
      have hb := longestMatch_bounds a b
      have h1 := ih (a.take (longestMatch a b).1) (b.take (longestMatch a b).2.1)
      have h2 := ih (a.drop ((longestMatch a b).1 + (longestMatch a b).2.2))
        (b.drop ((longestMatch a b).2.1 + (longestMatch a b).2.2))
      simp only [List.length_take, List.length_drop] at h1 h2
      exact ⟨by omega, by omega⟩

theorem seq_similarity_le_one (a b : List Char) : seq_similarity a b ≤ 1 := by
  unfold seq_similarity
  by_cases h : a.length + b.length = 0
  · simp [h]
  · simp only [h, if_neg, ite_false]
    rw [Rat.mkRat_eq_div]
    rw [div_le_one (by positivity)]
    have h1 := (matchTotalF_le (a.length + b.length) a b).1
    have h2 := (matchTotalF_le (a.length + b.length) a b).2
    unfold matchTotal
    push_cast
    have : 2 * (matchTotalF (a.length + b.length) a b) ≤ a.length + b.length := by
      omega
    exact_mod_cast this

theorem word_similarity_le_one (a b : String) : word_similarity a b ≤ 1 := by
  unfold word_similarity
  dsimp only
  split
  · norm_num
  · split
    · rename_i hu
      rw [Rat.mkRat_eq_div, div_le_one (by exact_mod_cast hu)]
      exact_mod_cast Finset.card_le_card Finset.inter_subset_union
    · norm_num

theorem contains_similarity_le_one (a b : String) : contains_similarity a b ≤ 1 := by
  unfold contains_similarity
  split
  · decide
  · norm_num

theorem pyMax_le {x y c : ℚ} (hx : x ≤ c) (hy : y ≤ c) : pyMax x y ≤ c := by
  unfold pyMax; split <;> assumption

theorem le_pyMax_left (x y : ℚ) : x ≤ pyMax x y := by
  unfold pyMax; split
  · exact le_refl x
  · exact le_of_not_le (by assumption)

/-- The similarity score never exceeds 1. -/
theorem calculate_name_similarity_le_one (a b : String) :
    calculate_name_similarity a b ≤ 1 := by
  unfold calculate_name_similarity
  split
  · norm_num
  · dsimp only
    split
    · exact le_refl 1
    · exact pyMax_le (pyMax_le (seq_similarity_le_one _ _) (word_similarity_le_one _ _))
        (contains_similarity_le_one _ _)

/-- The best-candidate fold keeps its score at most 1. -/
theorem best_for_le_one (n : String) (registry : List RegRec) :
    (best_for n registry).2 ≤ 1 := by
  unfold best_for
  apply foldl_preserve (P := fun acc : Option RegRec × ℚ => acc.2 ≤ 1)
  · norm_num
  · intro acc r _ hacc
    dsimp only
    split
    · split
      · exact calculate_name_similarity_le_one _ _
      · exact hacc
    · exact hacc

/-- Every cedula-pass match has method "cedula" and confidence exactly 1. -/
theorem match_by_cedula_confidence (registry : List RegRec) :
    ∀ srcs, ∀ m ∈ (match_by_cedula registry srcs).1,
      m.match_method = "cedula" ∧ m.confidence = 1 := by
  intro srcs
  induction srcs with
  | nil => simp [match_by_cedula]
  | cons p rest ih =>
    intro m hm
    by_cases hc : p.cedula = ""
    · simp [match_by_cedula, hc] at hm
      exact ih m hm
    · cases hs : search_by_cedula p.cedula registry with
      | nil =>
        simp [match_by_cedula, hc, hs] at hm
        exact ih m hm
      | cons r rs =>
        simp [match_by_cedula, hc, hs] at hm
        rcases hm with h | h
        · subst h; exact ⟨rfl, rfl⟩
        · exact ih m h

/-- Every name-pass match has method "nombre" and confidence in
[min_similarity, 1]. -/
theorem match_by_name_confidence (registry : List RegRec) (min_similarity : ℚ) :
    ∀ srcs, ∀ m ∈ (match_by_name registry min_similarity srcs).1,
      m.match_method = "nombre" ∧
        min_similarity ≤ m.confidence ∧ m.confidence ≤ 1 := by
  intro srcs
  induction srcs with
  | nil => simp [match_by_name]
  | cons p rest ih =>
    intro m hm
    by_cases hn : p.nombre = ""
    · simp [match_by_name, hn] at hm
      exact ih m hm
    · cases hb : (best_for p.nombre registry).1 with
      | none =>
        simp [match_by_name, hn, hb] at hm
        exact ih m hm
      | some best_match =>
        by_cases hms : min_similarity ≤ (best_for p.nombre registry).2
        · simp [match_by_name, hn, hb, hms] at hm
          rcases hm with h | h
          · subst h
            exact ⟨rfl, hms, best_for_le_one p.nombre registry⟩
          · exact ih m h
        · simp [match_by_name, hn, hb, hms] at hm
          exact ih m hm

/-- C7: every match produced by the full linker run satisfies the
confidence invariant — confidence is exactly 1 for method "cedula", and in
[threshold, 1] for method "nombre". -/
theorem c7_confidence_invariant (pdf_employees : List SourceRec)
    (registry : List RegRec) (min_similarity : ℚ) :
    ∀ m ∈ (perform_full_matching pdf_employees registry min_similarity).matched,
      (m.match_method = "cedula" → m.confidence = 1) ∧
      (m.match_method = "nombre" →
        min_similarity ≤ m.confidence ∧ m.confidence ≤ 1) := by
  intro m hm
  unfold perform_full_matching at hm
  dsimp only at hm
  rcases List.mem_append.mp hm with h | h
  · have := match_by_cedula_confidence registry pdf_employees m h
    refine ⟨fun _ => this.2, fun hx => absurd (this.1 ▸ hx) (by decide)⟩
  · have := match_by_name_confidence registry min_similarity _ m h
    refine ⟨fun hx => absurd (this.1 ▸ hx) (by decide), fun _ => this.2⟩

/-- C7 witness: a concrete run containing one cedula match, whose
confidence the invariant pins to 1. -/
theorem c7_witness :
    ({ nombre_excel := "PEREZ", cedula := "123", centro_costo := "CC1",
       match_method := "cedula", confidence := 1 } : MatchedEmp).confidence = 1 :=
  (c7_confidence_invariant [⟨"", "123"⟩] [⟨"PEREZ", "123", "CC1"⟩] (mkRat 7 10)
    { nombre_excel := "PEREZ", cedula := "123", centro_costo := "CC1",
      match_method := "cedula", confidence := 1 } (by decide)).1 rfl

/-! ## Claim C4 -/

/-- The head of a filtered list is the first element satisfying the
predicate. -/
theorem head_filter_eq_find {α : Type} (p : α → Bool) (l : List α) :
    (l.filter p).head? = l.find? p := by
  induction l with
  | nil => rfl
  | cons a t ih => by_cases h : p a <;> simp [List.filter_cons, List.find?_cons, h, ih]

/-- C4: the cedula pass compares ids after stripping non-digits on both
sides; the first registry record with an equal cleaned id wins
(`find?`); a hit yields exactly one match record — method "cedula",
confidence 1, registry name verbatim (`mkCedulaMatch`); a miss or empty
source id sends the record to the remainder. -/
theorem c4_match_by_cedula_spec (registry : List RegRec) (srcs : List SourceRec) :
    (match_by_cedula registry srcs).1 =
      srcs.filterMap (fun p =>
        if p.cedula = "" then none
        else
          (registry.find?
            (fun r => clean_cedula r.cedula == clean_cedula p.cedula)).map
            (fun r => mkCedulaMatch p r)) ∧
    (match_by_cedula registry srcs).2 =
      srcs.filter (fun p =>
        p.cedula == "" ||
        (registry.find?
          (fun r => clean_cedula r.cedula == clean_cedula p.cedula)).isNone) := by
  induction srcs with
  | nil => exact ⟨rfl, rfl⟩
  | cons p rest ih =>
    have hfind :
        (search_by_cedula p.cedula registry).head? =
          registry.find? (fun r => clean_cedula r.cedula == clean_cedula p.cedula) :=
      head_filter_eq_find _ _
    by_cases hc : p.cedula = ""
    · constructor
      · simp [match_by_cedula, hc, List.filterMap_cons, ih.1]
      · simp [match_by_cedula, hc, List.filter_cons, ih.2]
    · cases hs : search_by_cedula p.cedula registry with
      | nil =>
        have hnone :
            registry.find? (fun r => clean_cedula r.cedula == clean_cedula p.cedula) =
              none := by rw [← hfind, hs]; rfl
        constructor
        · simp [match_by_cedula, hc, hs, hnone, List.filterMap_cons, ih.1]
        · simp [match_by_cedula, hc, hs, hnone, List.filter_cons, ih.2]
      | cons r rs =>
        have hsome :
            registry.find? (fun r => clean_cedula r.cedula == clean_cedula p.cedula) =
              some r := by rw [← hfind, hs]; rfl
        constructor
        · simp [match_by_cedula, hc, hs, hsome, List.filterMap_cons, ih.1]
        · simp [match_by_cedula, hc, hs, hsome, List.filter_cons, ih.2]

/-! ## Claim C3 -/

/-- An empty second name always scores 0. -/
theorem calculate_name_similarity_empty_right (n : String) :
    calculate_name_similarity n "" = 0 := by
  simp [calculate_name_similarity]

theorem seq_similarity_nonneg (a b : List Char) : 0 ≤ seq_similarity a b := by
  unfold seq_similarity
  split
  · norm_num
  · rw [Rat.mkRat_eq_div]
    positivity

/-- The similarity score is non-negative. -/
theorem calculate_name_similarity_nonneg (a b : String) :
    0 ≤ calculate_name_similarity a b := by
  unfold calculate_name_similarity
  split
  · norm_num
  · dsimp only
    split
    · norm_num
    · exact le_trans (le_trans (seq_similarity_nonneg _ _) (le_pyMax_left _ _))
        (le_pyMax_left _ _)

/-- The step function of `best_for`. -/
def bestStep (n : String) (acc : Option RegRec × ℚ) (excel_emp : RegRec) :
    Option RegRec × ℚ :=
  if excel_emp.nombre ≠ "" then
    let similarity := calculate_name_similarity n excel_emp.nombre
    if acc.2 < similarity then (some excel_emp, similarity) else acc
  else acc

theorem best_for_eq_foldl (n : String) (registry : List RegRec) :
    best_for n registry = registry.foldl (bestStep n) (none, 0) := rfl

theorem bestStep_eq_skip (n : String) (acc : Option RegRec × ℚ) (r : RegRec)
    (h : r.nombre = "") : bestStep n acc r = acc := by
  simp [bestStep, h]

theorem bestStep_eq_upd (n : String) (acc : Option RegRec × ℚ) (r : RegRec)
    (h1 : r.nombre ≠ "") (h2 : acc.2 < calculate_name_similarity n r.nombre) :
    bestStep n acc r = (some r, calculate_name_similarity n r.nombre) := by
  simp [bestStep, h1, h2]

theorem bestStep_eq_keep (n : String) (acc : Option RegRec × ℚ) (r : RegRec)
    (h1 : r.nombre ≠ "") (h2 : ¬acc.2 < calculate_name_similarity n r.nombre) :
    bestStep n acc r = acc := by
  simp [bestStep, h1, h2]

theorem pyMax_eq_left {x y : ℚ} (h : y ≤ x) : pyMax x y = x := by
  unfold pyMax; rw [if_pos h]

theorem pyMax_eq_right {x y : ℚ} (h : ¬y ≤ x) : pyMax x y = y := by
  unfold pyMax; rw [if_neg h]

/-- Either the step keeps the accumulator and the element's similarity is
bounded by it, or it installs the element as new best. -/
theorem bestStep_split (n : String) (acc : Option RegRec × ℚ) (r : RegRec)
    (hacc : 0 ≤ acc.2) :
    (bestStep n acc r = acc ∧ calculate_name_similarity n r.nombre ≤ acc.2) ∨
    (bestStep n acc r = (some r, calculate_name_similarity n r.nombre) ∧
      acc.2 < calculate_name_similarity n r.nombre) := by
  by_cases hr : r.nombre = ""
  · refine Or.inl ⟨bestStep_eq_skip n acc r hr, ?_⟩
    rw [hr, calculate_name_similarity_empty_right]; exact hacc
  · by_cases hlt : acc.2 < calculate_name_similarity n r.nombre
    · exact Or.inr ⟨bestStep_eq_upd n acc r hr hlt, hlt⟩
    · exact Or.inl ⟨bestStep_eq_keep n acc r hr hlt, le_of_not_lt hlt⟩

/-- The score component of the best-candidate fold is the running maximum
of the similarities (floored at the initial accumulator). -/
theorem bestStep_foldl_snd (n : String) :
    ∀ (l : List RegRec) (acc : Option RegRec × ℚ), 0 ≤ acc.2 →
      (l.foldl (bestStep n) acc).2 =
        l.foldl (fun s r => pyMax s (calculate_name_similarity n r.nombre)) acc.2 := by
  intro l
  induction l with
  | nil => intro acc _; rfl
  | cons r t ih =>
    intro acc hacc
    rw [List.foldl_cons, List.foldl_cons]
    rcases bestStep_split n acc r hacc with ⟨hstep, hle⟩ | ⟨hstep, hlt⟩
    · rw [hstep, ih acc hacc, pyMax_eq_left hle]
    · rw [hstep, ih _ (calculate_name_similarity_nonneg _ _),
        pyMax_eq_right (not_le_of_lt hlt)]

/-- Structure of the best-candidate fold: either no update ever fired (the
accumulator survives and every scanned similarity is bounded by it), or
the winner is a list element whose similarity is the final score, every
element BEFORE it scoring strictly below — the first-seen-wins tie-break
of the strict `>` update. -/
theorem bestStep_foldl_cases (n : String) :
    ∀ (l : List RegRec) (acc : Option RegRec × ℚ), 0 ≤ acc.2 →
      ((l.foldl (bestStep n) acc).1 = acc.1 ∧
        (l.foldl (bestStep n) acc).2 = acc.2 ∧
        ∀ r ∈ l, calculate_name_similarity n r.nombre ≤ acc.2) ∨
      (∃ pre w suf, l = pre ++ w :: suf ∧
        (l.foldl (bestStep n) acc).1 = some w ∧
        calculate_name_similarity n w.nombre = (l.foldl (bestStep n) acc).2 ∧
        acc.2 < (l.foldl (bestStep n) acc).2 ∧
        ∀ q ∈ pre, calculate_name_similarity n q.nombre <
          (l.foldl (bestStep n) acc).2) := by
  intro l
  induction l with
  | nil => intro acc _; exact Or.inl ⟨rfl, rfl, by simp⟩
  | cons r t ih =>
    intro acc hacc
    rcases bestStep_split n acc r hacc with ⟨hstep, hle⟩ | ⟨hstep, hlt⟩
    · rcases ih acc hacc with ⟨h1, h2, h3⟩ | ⟨pre, w, suf, hsp, h1, h2, h3, h4⟩
      · refine Or.inl ?_
        rw [List.foldl_cons, hstep]
        refine ⟨h1, h2, ?_⟩
        intro q hq
        rcases List.mem_cons.mp hq with hq | hq
        · subst hq; exact hle
        · exact h3 q hq
      · refine Or.inr ⟨r :: pre, w, suf, by simp [hsp], ?_⟩
        rw [List.foldl_cons, hstep]
        refine ⟨h1, h2, h3, ?_⟩
        intro q hq
        rcases List.mem_cons.mp hq with hq | hq
        · subst hq; exact lt_of_le_of_lt hle h3
        · exact h4 q hq
    · have hacc2 : (0 : ℚ) ≤ calculate_name_similarity n r.nombre :=
        calculate_name_similarity_nonneg _ _
      rcases ih (some r, calculate_name_similarity n r.nombre) hacc2 with
        ⟨h1, h2, h3⟩ | ⟨pre, w, suf, hsp, h1, h2, h3, h4⟩
      · refine Or.inr ⟨[], r, t, rfl, ?_⟩
        rw [List.foldl_cons, hstep]
        refine ⟨h1, h2.symm, ?_, by simp⟩
        rw [h2]; exact hlt
      · refine Or.inr ⟨r :: pre, w, suf, by simp [hsp], ?_⟩
        rw [List.foldl_cons, hstep]
        refine ⟨h1, h2, lt_trans hlt h3, ?_⟩
        intro q hq
        rcases List.mem_cons.mp hq with hq | hq
        · subst hq; exact h3
        · exact h4 q hq

/-- The best score is the maximum similarity over the registry (floored at
0). -/
theorem best_for_snd_eq (n : String) (registry : List RegRec) :
    (best_for n registry).2 =
      (registry.map (fun r => calculate_name_similarity n r.nombre)).foldl pyMax 0 := by
  rw [best_for_eq_foldl, bestStep_foldl_snd n registry (none, 0) (le_refl 0),
    List.foldl_map]

/-- When no candidate was ever installed, the best score is 0. -/
theorem best_for_none_snd (n : String) (registry : List RegRec)
    (h : (best_for n registry).1 = none) : (best_for n registry).2 = 0 := by
  rw [best_for_eq_foldl] at h ⊢
  rcases bestStep_foldl_cases n registry (none, 0) (le_refl 0) with
    ⟨_, h2, _⟩ | ⟨_, _, _, _, h1, _, _, _⟩
  · exact h2
  · rw [h1] at h; cases h

/-- First-seen-wins: the installed candidate is a registry element whose
similarity equals the best score, and every registry element BEFORE it
scores strictly below the best score. -/
theorem best_for_some_first (n : String) (registry : List RegRec) (r : RegRec)
    (h : (best_for n registry).1 = some r) :
    ∃ pre suf, registry = pre ++ r :: suf ∧
      calculate_name_similarity n r.nombre = (best_for n registry).2 ∧
      ∀ q ∈ pre, calculate_name_similarity n q.nombre < (best_for n registry).2 := by
  rw [best_for_eq_foldl] at h ⊢
  rcases bestStep_foldl_cases n registry (none, 0) (le_refl 0) with
    ⟨h1, _, _⟩ | ⟨pre, w, suf, hsp, h1, h2, _, h4⟩
  · rw [h1] at h; cases h
  · rw [h1] at h
    obtain rfl : w = r := Option.some.inj h
    exact ⟨pre, suf, hsp, h2, h4⟩

/-- A strictly positive best score guarantees an installed candidate. -/
theorem best_for_isSome_of_pos (n : String) (registry : List RegRec)
    (h : 0 < (best_for n registry).2) : (best_for n registry).1.isSome := by
  cases hb : (best_for n registry).1 with
  | none => rw [best_for_none_snd n registry hb] at h; exact absurd h (lt_irrefl 0)
  | some r => rfl

/-- C3, amended for strictly positive thresholds: the name pass emits, per
source record with non-empty name, exactly one match when the best score
reaches the threshold (with method "nombre" and confidence equal to the
best score), and sends empty-name records and below-threshold records to
unmatched; the best score is the maximum similarity over the registry, and
the winning record is the first one attaining it (strict `>` update).
At a non-positive threshold the claim fails — see the counterexample —
because a record whose best score is 0 never installs a candidate. -/
theorem c3_match_by_name_spec (registry : List RegRec) (min_similarity : ℚ)
    (h : 0 < min_similarity) (srcs : List SourceRec) :
    ((match_by_name registry min_similarity srcs).1 =
      srcs.filterMap (fun p =>
        if p.nombre = "" then none
        else
          match (best_for p.nombre registry).1 with
          | some r =>
            if min_similarity ≤ (best_for p.nombre registry).2 then
              some (mkNombreMatch r (best_for p.nombre registry).2)
            else none
          | none => none)) ∧
    ((match_by_name registry min_similarity srcs).2 =
      srcs.filter (fun p =>
        p.nombre == "" ||
        decide ((best_for p.nombre registry).2 < min_similarity))) ∧
    (∀ n, (best_for n registry).2 =
      (registry.map (fun r => calculate_name_similarity n r.nombre)).foldl pyMax 0) ∧
    (∀ n r, (best_for n registry).1 = some r →
      ∃ pre suf, registry = pre ++ r :: suf ∧
        calculate_name_similarity n r.nombre = (best_for n registry).2 ∧
        ∀ q ∈ pre, calculate_name_similarity n q.nombre <
          (best_for n registry).2) ∧
    (∀ n, min_similarity ≤ (best_for n registry).2 →
      (best_for n registry).1.isSome) := by
  refine ⟨?_, ?_, fun n => best_for_snd_eq n registry,
    fun n r hr => best_for_some_first n registry r hr,
    fun n hn => best_for_isSome_of_pos n registry (lt_of_lt_of_le h hn)⟩
  · induction srcs with
    | nil => rfl
    | cons p rest ih =>
      by_cases hn : p.nombre = ""
      · simp [match_by_name, hn, List.filterMap_cons, ih]
      · cases hb : (best_for p.nombre registry).1 with
        | none =>
          simp [match_by_name, hn, hb, List.filterMap_cons, ih]
        | some r =>
          by_cases hms : min_similarity ≤ (best_for p.nombre registry).2
          · simp [match_by_name, hn, hb, hms, List.filterMap_cons, ih]
          · simp [match_by_name, hn, hb, hms, List.filterMap_cons, ih]
  · induction srcs with
    | nil => rfl
    | cons p rest ih =>
      by_cases hn : p.nombre = ""
      · simp [match_by_name, hn, List.filter_cons, ih]
      · cases hb : (best_for p.nombre registry).1 with
        | none =>
          have h0 : (best_for p.nombre registry).2 < min_similarity := by
            rw [best_for_none_snd p.nombre registry hb]; exact h
          simp [match_by_name, hn, hb, List.filter_cons, h0, ih]
        | some r =>
          by_cases hms : min_similarity ≤ (best_for p.nombre registry).2
          · have h0 : ¬(best_for p.nombre registry).2 < min_similarity :=
              not_lt.mpr hms
            simp [match_by_name, hn, hb, hms, List.filter_cons, h0, ih]
          · have h0 : (best_for p.nombre registry).2 < min_similarity :=
              not_le.mp hms
            simp [match_by_name, hn, hb, hms, List.filter_cons, h0, ih]

/-- C3, counterexample at threshold 0: the source name "a" is non-empty and
the best (maximum) similarity over the registry is 0 ≥ 0 = threshold, yet
the record lands in unmatched and no match is emitted, because the strict
`>` update never installs a candidate with score 0. -/
theorem c3_counterexample :
    (([⟨"b", "9", "cc"⟩] : List RegRec).map
      (fun r => calculate_name_similarity "a" r.nombre)).foldl pyMax 0 = 0 ∧
    ((0 : ℚ) ≤ 0 ∧ ("a" : String) ≠ "") ∧
    match_by_name [⟨"b", "9", "cc"⟩] 0 [⟨"a", ""⟩] = ([], [⟨"a", ""⟩]) := by
  refine ⟨?_, ⟨le_refl 0, by decide⟩, by decide⟩
  have hsim : calculate_name_similarity "a" "b" = 0 := by decide
  simp [hsim, pyMax]

/-- C3 witness: at threshold 0.7 a registry whose single name equals the
source name produces exactly the predicted singleton match list. -/
theorem c3_witness :
    (match_by_name [⟨"Juan Perez", "9", "cc"⟩] (mkRat 7 10) [⟨"Juan Perez", ""⟩]).1 =
      [⟨"Juan Perez", "9", "cc", "nombre", 1⟩] := by
  rw [(c3_match_by_name_spec [⟨"Juan Perez", "9", "cc"⟩] (mkRat 7 10) (by decide)
    [⟨"Juan Perez", ""⟩]).1]
  decide

/-! ## Claim C6 -/

/-- The cedula pass partitions its input. -/
theorem match_by_cedula_length (registry : List RegRec) :
    ∀ srcs, (match_by_cedula registry srcs).1.length +
      (match_by_cedula registry srcs).2.length = srcs.length := by
  intro srcs
  induction srcs with
  | nil => rfl
  | cons p rest ih =>
    by_cases hc : p.cedula = ""
    · simp only [match_by_cedula, hc]
      simp only [ne_eq, not_true_eq_false, if_false, List.length_cons]
      omega
    · cases hs : search_by_cedula p.cedula registry with
      | nil =>
        simp [match_by_cedula, hc, hs]
        omega
      | cons r rs =>
        simp [match_by_cedula, hc, hs]
        omega

/-- The name pass partitions its input. -/
theorem match_by_name_length (registry : List RegRec) (min_similarity : ℚ) :
    ∀ srcs, (match_by_name registry min_similarity srcs).1.length +
      (match_by_name registry min_similarity srcs).2.length = srcs.length := by
  intro srcs
  induction srcs with
  | nil => rfl
  | cons p rest ih =>
    by_cases hn : p.nombre = ""
    · simp [match_by_name, hn]
      omega
    · cases hb : (best_for p.nombre registry).1 with
      | none =>
        simp [match_by_name, hn, hb]
        omega
      | some r =>
        by_cases hms : min_similarity ≤ (best_for p.nombre registry).2
        · simp [match_by_name, hn, hb, hms]
          omega
        · simp [match_by_name, hn, hb, hms]
          omega

/-- C6: the run statistics satisfy
`matched_by_cedula + matched_by_name = total_matched` and
`total_matched + total_unmatched = |input|`, and the match rate is 0 on an
empty input (not an error) and `total_matched / |input|` otherwise
(stated multiplicatively: `rate * |input| = total_matched`). -/
theorem c6_statistics_invariant (pdf_employees : List SourceRec)
    (registry : List RegRec) (min_name_similarity : ℚ) :
    (perform_full_matching pdf_employees registry min_name_similarity).matched_by_cedula +
      (perform_full_matching pdf_employees registry min_name_similarity).matched_by_name =
      (perform_full_matching pdf_employees registry min_name_similarity).total_matched ∧
    (perform_full_matching pdf_employees registry min_name_similarity).total_matched +
      (perform_full_matching pdf_employees registry min_name_similarity).total_unmatched =
      pdf_employees.length ∧
    (pdf_employees = [] →
      (perform_full_matching pdf_employees registry min_name_similarity).match_rate = 0) ∧
    (pdf_employees ≠ [] →
      (perform_full_matching pdf_employees registry min_name_similarity).match_rate *
        (pdf_employees.length : ℚ) =
        ((perform_full_matching pdf_employees registry min_name_similarity).total_matched : ℚ)) := by
  have hced := match_by_cedula_length registry pdf_employees
  have hname := match_by_name_length registry min_name_similarity
    (match_by_cedula registry pdf_employees).2
  unfold perform_full_matching
  dsimp only
  refine ⟨by simp, ?_, ?_, ?_⟩
  · simp only [List.length_append]
    omega
  · intro he
    simp [he]
  · intro he
    have hlen : pdf_employees.length ≠ 0 := by
      intro h0
      exact he (List.length_eq_zero.mp h0)
    have hne : pdf_employees.isEmpty = false := by
      cases pdf_employees with
      | nil => exact absurd rfl he
      | cons a t => rfl
    rw [hne, if_neg Bool.false_ne_true, Rat.mkRat_eq_div, div_mul_cancel₀]
    · norm_num
    · exact_mod_cast hlen

/-- C6 witness: one unmatched record against an empty registry — the
partition sums to the input size and the rate equation holds. -/
theorem c6_witness :
    (perform_full_matching [⟨"x", "1"⟩] [] (mkRat 7 10)).total_matched +
      (perform_full_matching [⟨"x", "1"⟩] [] (mkRat 7 10)).total_unmatched = 1 ∧
    (perform_full_matching [⟨"x", "1"⟩] [] (mkRat 7 10)).match_rate *
      (([⟨"x", "1"⟩] : List SourceRec).length : ℚ) =
      ((perform_full_matching [⟨"x", "1"⟩] [] (mkRat 7 10)).total_matched : ℚ) :=
  ⟨(c6_statistics_invariant [⟨"x", "1"⟩] [] (mkRat 7 10)).2.1,
    (c6_statistics_invariant [⟨"x", "1"⟩] [] (mkRat 7 10)).2.2.2 (by decide)⟩

/-! ## Claim C5 -/

/-- C5: consolidation is a pure per-record projection, in input order and
of the same length: the displayed name is the reconstructor applied to the
registry name (empty when the registry name is empty — a `MatchedEmp`
carries no PDF name at all, so the name can never derive from the source),
the status label embeds the match method, and the confidence label is the
two-decimal rendering of the confidence. -/
theorem c5_consolidation_projection (ms : List MatchedEmp) :
    (get_consolidated_data ms).length = ms.length ∧
    ∀ i : ℕ, (get_consolidated_data ms)[i]? =
      (ms[i]?).map (fun emp =>
        ({ nombre := if emp.nombre_excel ≠ "" then format_name emp.nombre_excel else ""
           cedula := emp.cedula
           centro_costo := emp.centro_costo
           estado_match := "Encontrado (" ++ emp.match_method ++ ")"
           confianza := formatTwoDec emp.confidence } : ConsolidatedRec)) := by
  constructor
  · simp [get_consolidated_data]
  · intro i
    simp [get_consolidated_data]

/-! ## Claim C8 -/

/-- A character as it can occur in a fully normalized string: a space, or a
character fixed by lower-casing and accent replacement that is a word
character and not whitespace. -/
def canonChar (c : Char) : Prop :=
  c = ' ' ∨ (pyLowerChar c = c ∧ accentRepl c = c ∧
    isWordChar c = true ∧ pyIsWs c = false)

/-- Adjacent characters are not both spaces. -/
def noTwoSpaces (a b : Char) : Prop :=
  ¬(a = ' ' ∧ b = ' ')

/-- Canonical form of a normalized character list: canonical characters, no
double space, no leading and no trailing space. -/
def canonList (t : List Char) : Prop :=
  (∀ c ∈ t, canonChar c) ∧ List.Chain' noTwoSpaces t ∧
  (∀ c, t.head? = some c → c ≠ ' ') ∧ (∀ c, t.getLast? = some c → c ≠ ' ')

theorem pyLowerChar_cases (c : Char) :
    pyLowerChar c = c ∨ ∃ p ∈ lowerPairs, pyLowerChar c = p.2 := by
  unfold pyLowerChar
  cases h : lowerPairs.find? (fun p => p.1 == c) with
  | none => exact Or.inl rfl
  | some p => exact Or.inr ⟨p, List.mem_of_find?_eq_some h, rfl⟩

theorem accentRepl_cases (c : Char) :
    accentRepl c = c ∨ ∃ p ∈ accentPairs, accentRepl c = p.2 := by
  unfold accentRepl
  cases h : accentPairs.find? (fun p => p.1 == c) with
  | none => exact Or.inl rfl
  | some p => exact Or.inr ⟨p, List.mem_of_find?_eq_some h, rfl⟩

/-- A table whose keys are all non-whitespace finds nothing at a
whitespace character. -/
theorem find?_none_of_ws (c : Char) (pairs : List (Char × Char))
    (hws : pyIsWs c = true) (hkeys : ∀ p ∈ pairs, pyIsWs p.1 = false) :
    pairs.find? (fun p => p.1 == c) = none := by
  apply List.find?_eq_none.mpr
  intro p hp hbeq
  have he : p.1 = c := by simpa using hbeq
  have h2 := hkeys p hp
  rw [he, hws] at h2
  cases h2

theorem pyLowerChar_ws (c : Char) (h : pyIsWs c = true) : pyLowerChar c = c := by
  unfold pyLowerChar
  rw [find?_none_of_ws c lowerPairs h (by decide)]

theorem accentRepl_ws (c : Char) (h : pyIsWs c = true) : accentRepl c = c := by
  unfold accentRepl
  rw [find?_none_of_ws c accentPairs h (by decide)]

/-- The per-character effect of the normalize pipeline: starting from a
word-or-whitespace character, lower-casing, accent replacement and
whitespace mapping yield a canonical character that passes the final
filter. -/
theorem charPipeline (x : Char) (hx : isWordChar x = true ∨ pyIsWs x = true) :
    canonChar (wsToSpace (accentRepl (pyLowerChar x))) ∧
    (isWordChar (wsToSpace (accentRepl (pyLowerChar x))) ||
      pyIsWs (wsToSpace (accentRepl (pyLowerChar x)))) = true := by
  by_cases hws : pyIsWs (accentRepl (pyLowerChar x)) = true
  · have hsp : wsToSpace (accentRepl (pyLowerChar x)) = ' ' := by
      simp [wsToSpace, hws]
    rw [hsp]
    exact ⟨Or.inl rfl, by decide⟩
  · have hid : wsToSpace (accentRepl (pyLowerChar x)) = accentRepl (pyLowerChar x) := by
      simp [wsToSpace, hws]
    rw [hid]
    have hxw : isWordChar x = true := by
      rcases hx with hx | hx
      · exact hx
      · exact absurd (by rw [pyLowerChar_ws x hx, accentRepl_ws x hx]; exact hx) hws
    rcases accentRepl_cases (pyLowerChar x) with ha | ⟨q, hq, ha⟩
    · rw [ha]
      rcases pyLowerChar_cases x with hl | ⟨p, hp, hl⟩
      · rw [hl]
        rw [hl] at ha hws
        rw [ha] at hws
        refine ⟨Or.inr ⟨hl, ha, hxw, ?_⟩, by rw [hxw]; rfl⟩
        exact Bool.eq_false_iff.mpr (fun ht => hws ht)
      · rw [hl]
        rw [hl] at ha hws
        rw [ha] at hws
        have hfin : ∀ p ∈ lowerPairs, pyLowerChar p.2 = p.2 ∧ isWordChar p.2 = true := by
          decide
        obtain ⟨h1, h2⟩ := hfin p hp
        refine ⟨Or.inr ⟨h1, ha, h2, ?_⟩, by rw [h2]; rfl⟩
        exact Bool.eq_false_iff.mpr (fun ht => hws ht)
    · rw [ha]
      have hfin : ∀ q ∈ accentPairs, pyLowerChar q.2 = q.2 ∧ accentRepl q.2 = q.2 ∧
          isWordChar q.2 = true ∧ pyIsWs q.2 = false := by decide
      obtain ⟨h1, h2, h3, h4⟩ := hfin q hq
      exact ⟨Or.inr ⟨h1, h2, h3, h4⟩, by rw [h3]; rfl⟩

theorem squeezeAux_subset (l : List Char) :
    ∀ (prev : Char), ∀ c ∈ squeezeAux prev l, c ∈ l := by
  induction l with
  | nil => intro prev c hc; simp [squeezeAux] at hc
  | cons d t ih =>
    intro prev c hc
    unfold squeezeAux at hc
    by_cases h : (prev == ' ' && d == ' ') = true
    · rw [if_pos h] at hc
      exact List.mem_cons_of_mem d (ih prev c hc)
    · rw [if_neg h] at hc
      rcases List.mem_cons.mp hc with hc | hc
      · exact hc ▸ List.mem_cons_self d t
      · exact List.mem_cons_of_mem d (ih d c hc)

theorem squeeze_subset (l : List Char) : ∀ c ∈ squeeze l, c ∈ l := by
  cases l with
  | nil => intro c hc; cases hc
  | cons d t =>
    intro c hc
    rcases List.mem_cons.mp hc with hc | hc
    · exact hc ▸ List.mem_cons_self d t
    · exact List.mem_cons_of_mem d (squeezeAux_subset t d c hc)

theorem dropTrailingWs_subset (l : List Char) :
    ∀ c ∈ dropTrailingWs l, c ∈ l := by
  intro c hc
  unfold dropTrailingWs at hc
  rw [List.mem_reverse] at hc
  have := (List.dropWhile_sublist (p := pyIsWs) (l := l.reverse)).subset hc
  exact List.mem_reverse.mp this

theorem stripBoth_subset (l : List Char) : ∀ c ∈ stripBoth l, c ∈ l := by
  intro c hc
  have h1 := dropTrailingWs_subset _ c hc
  exact (List.dropWhile_sublist (p := pyIsWs) (l := l)).subset h1

theorem squeezeAux_chain (l : List Char) :
    ∀ (prev : Char), List.Chain' noTwoSpaces (prev :: squeezeAux prev l) := by
  induction l with
  | nil => intro prev; simp [squeezeAux]
  | cons d t ih =>
    intro prev
    unfold squeezeAux
    by_cases h : (prev == ' ' && d == ' ') = true
    · rw [if_pos h]; exact ih prev
    · rw [if_neg h]
      refine List.chain'_cons.mpr ⟨?_, ih d⟩
      rintro ⟨h1, h2⟩
      exact h (by rw [h1, h2]; rfl)

theorem squeeze_chain (l : List Char) : List.Chain' noTwoSpaces (squeeze l) := by
  cases l with
  | nil => simp [squeeze]
  | cons c t => exact squeezeAux_chain t c

theorem chain_dropWhile {R : Char → Char → Prop} (p : Char → Bool)
    (l : List Char) (h : List.Chain' R l) :
    List.Chain' R (l.dropWhile p) := by
  induction l with
  | nil => exact h
  | cons a t ih =>
    rw [List.dropWhile_cons]
    by_cases hp : p a = true
    · rw [if_pos hp]; exact ih h.tail
    · rw [if_neg hp]; exact h

theorem chain_dropTrailing (l : List Char)
    (h : List.Chain' noTwoSpaces l) :
    List.Chain' noTwoSpaces (dropTrailingWs l) := by
  unfold dropTrailingWs
  have h1 : List.Chain' (flip noTwoSpaces) l.reverse :=
    List.chain'_reverse.mpr h
  exact List.chain'_reverse.mpr (chain_dropWhile pyIsWs l.reverse h1)

theorem stripBoth_chain (l : List Char)
    (h : List.Chain' noTwoSpaces l) :
    List.Chain' noTwoSpaces (stripBoth l) :=
  chain_dropTrailing _ (chain_dropWhile _ _ h)

theorem head_dropWhile_not (p : Char → Bool) (l : List Char) :
    ∀ c, (l.dropWhile p).head? = some c → p c = false := by
  induction l with
  | nil => intro c hc; cases hc
  | cons a t ih =>
    intro c hc
    rw [List.dropWhile_cons] at hc
    by_cases hp : p a = true
    · rw [if_pos hp] at hc; exact ih c hc
    · rw [if_neg hp] at hc
      obtain rfl : a = c := by injection hc
      exact Bool.eq_false_iff.mpr hp

/-- `dropTrailingWs l` is `l` minus a trailing chunk. -/
theorem dropTrailingWs_append (l : List Char) :
    dropTrailingWs l ++ (l.reverse.takeWhile pyIsWs).reverse = l := by
  unfold dropTrailingWs
  rw [← List.reverse_append, List.takeWhile_append_dropWhile, List.reverse_reverse]

theorem head_dropTrailing (l : List Char) (c : Char)
    (h : (dropTrailingWs l).head? = some c) : l.head? = some c := by
  conv_lhs => rw [← dropTrailingWs_append l]
  cases hd : dropTrailingWs l with
  | nil => rw [hd] at h; cases h
  | cons a t =>
    rw [hd] at h
    rw [List.cons_append]
    exact h

theorem getLast_dropTrailing (l : List Char) (c : Char)
    (h : (dropTrailingWs l).getLast? = some c) : pyIsWs c = false := by
  unfold dropTrailingWs at h
  rw [List.getLast?_reverse] at h
  exact head_dropWhile_not pyIsWs l.reverse c h

theorem stripBoth_head_not_ws (l : List Char) (c : Char)
    (h : (stripBoth l).head? = some c) : pyIsWs c = false := by
  unfold stripBoth at h
  exact head_dropWhile_not pyIsWs l c (head_dropTrailing _ c h)

theorem stripBoth_last_not_ws (l : List Char) (c : Char)
    (h : (stripBoth l).getLast? = some c) : pyIsWs c = false :=
  getLast_dropTrailing _ c h

/-- Every output of the normalize pipeline on word-or-whitespace input is
in canonical form. The hypothesis is essential: it makes the final filter
the identity, so no new space adjacencies can appear (dropping punctuation
is exactly what breaks idempotence in general). -/
theorem normalizeChars_canon (l : List Char)
    (h : ∀ c ∈ l, isWordChar c = true ∨ pyIsWs c = true) :
    canonList (normalizeChars l) := by
  have hmem3 : ∀ c ∈ squeeze (((stripBoth (l.map pyLowerChar)).map accentRepl).map wsToSpace),
      canonChar c ∧ (isWordChar c || pyIsWs c) = true := by
    intro c hc
    have hc2 := squeeze_subset _ c hc
    rw [List.mem_map] at hc2
    obtain ⟨z, hz, rfl⟩ := hc2
    rw [List.mem_map] at hz
    obtain ⟨w, hw, rfl⟩ := hz
    have hw2 := stripBoth_subset _ w hw
    rw [List.mem_map] at hw2
    obtain ⟨x, hx, rfl⟩ := hw2
    exact charPipeline x (h x hx)
  have hfilter :
      (squeeze (((stripBoth (l.map pyLowerChar)).map accentRepl).map wsToSpace)).filter
        (fun c => isWordChar c || pyIsWs c) =
      squeeze (((stripBoth (l.map pyLowerChar)).map accentRepl).map wsToSpace) :=
    List.filter_eq_self.mpr (fun c hc => (hmem3 c hc).2)
  show canonList (stripBoth _)
  rw [hfilter]
  refine ⟨?_, ?_, ?_, ?_⟩
  · intro c hc
    exact (hmem3 c (stripBoth_subset _ c hc)).1
  · exact stripBoth_chain _ (squeeze_chain _)
  · intro c hc heq
    have := stripBoth_head_not_ws _ c hc
    rw [heq] at this
    cases this
  · intro c hc heq
    have := stripBoth_last_not_ws _ c hc
    rw [heq] at this
    cases this

theorem dropWhile_eq_self_of_head (p : Char → Bool) (l : List Char)
    (h : ∀ c, l.head? = some c → p c = false) : l.dropWhile p = l := by
  cases l with
  | nil => rfl
  | cons a t =>
    rw [List.dropWhile_cons, if_neg]
    rw [h a rfl]
    exact Bool.false_ne_true

theorem stripBoth_eq_self (l : List Char)
    (hh : ∀ c, l.head? = some c → pyIsWs c = false)
    (hl : ∀ c, l.getLast? = some c → pyIsWs c = false) : stripBoth l = l := by
  unfold stripBoth dropTrailingWs
  rw [dropWhile_eq_self_of_head pyIsWs l hh]
  rw [dropWhile_eq_self_of_head pyIsWs l.reverse
    (fun c hc => hl c (by rwa [List.head?_reverse] at hc))]
  exact List.reverse_reverse l

theorem squeezeAux_eq_self (l : List Char) :
    ∀ prev, List.Chain' noTwoSpaces (prev :: l) → squeezeAux prev l = l := by
  induction l with
  | nil => intro prev _; rfl
  | cons d t ih =>
    intro prev hch
    obtain ⟨h1, h2⟩ := List.chain'_cons.mp hch
    unfold squeezeAux
    rw [if_neg, ih d h2]
    intro hb
    rw [Bool.and_eq_true, beq_iff_eq, beq_iff_eq] at hb
    exact h1 hb

theorem squeeze_eq_self (l : List Char)
    (h : List.Chain' noTwoSpaces l) : squeeze l = l := by
  cases l with
  | nil => rfl
  | cons c t =>
    rw [show squeeze (c :: t) = c :: squeezeAux c t from rfl,
      squeezeAux_eq_self t c h]

/-- A canonical-form character list is a fixed point of the normalize
pipeline. -/
theorem normalizeChars_fixed (t : List Char) (h : canonList t) :
    normalizeChars t = t := by
  obtain ⟨hchar, hchain, hhead, hlast⟩ := h
  have hnotws : ∀ c ∈ t, c ≠ ' ' → pyIsWs c = false := by
    intro c hc hne
    rcases hchar c hc with rfl | ⟨_, _, _, h4⟩
    · exact absurd rfl hne
    · exact h4
  have hheadws : ∀ c, t.head? = some c → pyIsWs c = false ∨ c = ' ' := by
    intro c hc
    exact Or.inl (hnotws c (List.mem_of_mem_head? hc) (hhead c hc))
  have hstrip : stripBoth t = t := by
    apply stripBoth_eq_self
    · intro c hc
      exact hnotws c (List.mem_of_mem_head? hc) (hhead c hc)
    · intro c hc
      exact hnotws c (List.mem_of_mem_getLast? hc) (hlast c hc)
  have hlow : t.map pyLowerChar = t := by
    rw [List.map_congr_left, List.map_id]
    intro c hc
    rcases hchar c hc with rfl | ⟨h1, _, _, _⟩
    · decide
    · exact h1
  have haccent : t.map accentRepl = t := by
    rw [List.map_congr_left, List.map_id]
    intro c hc
    rcases hchar c hc with rfl | ⟨_, h2, _, _⟩
    · decide
    · exact h2
  have hwsmap : t.map wsToSpace = t := by
    rw [List.map_congr_left, List.map_id]
    intro c hc
    rcases hchar c hc with rfl | ⟨_, _, _, h4⟩
    · decide
    · simp [wsToSpace, h4]
  have hsq : squeeze t = t := squeeze_eq_self t hchain
  have hfil : t.filter (fun c => isWordChar c || pyIsWs c) = t := by
    apply List.filter_eq_self.mpr
    intro c hc
    rcases hchar c hc with rfl | ⟨_, _, h3, _⟩
    · decide
    · rw [h3]; rfl
  unfold normalizeChars
  dsimp only
  rw [hlow, hstrip, haccent, hwsmap, hsq, hfil, hstrip]

/-- C8, counterexample: normalize is not idempotent. On "a ! b" the
whitespace collapse runs before punctuation removal, so deleting "!"
leaves the double space "a  b", which a second application collapses to
"a b". -/
theorem c8_counterexample :
    normalize_text "a ! b" = "a  b" ∧
    normalize_text (normalize_text "a ! b") = "a b" ∧
    normalize_text (normalize_text "a ! b") ≠ normalize_text "a ! b" :=
  ⟨by decide, by decide, by decide⟩

/-- C8, amended: the normalizer is idempotent on inputs all of whose
characters are word characters or whitespace (no punctuation); on such
inputs the character filter removes nothing, so the first pass already
produces a canonical string that the second pass fixes. -/
theorem c8_amended_idempotent_on_clean (s : String)
    (h : ∀ c ∈ s.data, isWordChar c = true ∨ pyIsWs c = true) :
    normalize_text (normalize_text s) = normalize_text s := by
  by_cases hs : s = ""
  · rw [hs]; rfl
  · unfold normalize_text
    rw [if_neg hs]
    by_cases hz : String.mk (normalizeChars s.data) = ""
    · rw [if_pos hz, hz]
    · rw [if_neg hz]
      have hdata : (String.mk (normalizeChars s.data)).data = normalizeChars s.data := rfl
      rw [hdata]
      exact congrArg String.mk (normalizeChars_fixed _ (normalizeChars_canon s.data h))

/-- C8 witness: a clean input (letters and spaces only) on which normalize
is idempotent. -/
theorem c8_witness :
    normalize_text (normalize_text "  Juan   Carlos  ") =
      normalize_text "  Juan   Carlos  " :=
  c8_amended_idempotent_on_clean "  Juan   Carlos  " (by decide)

/-! ## Claim C10 -/

/-- C10: two non-empty names with equal normalized forms — including forms
that are both empty, e.g. names made only of punctuation — get similarity
exactly 1.0 via the equal-normalization short circuit. -/
theorem c10_equal_normalization_gives_one (a b : String)
    (ha : a ≠ "") (hb : b ≠ "") (h : normalize_text a = normalize_text b) :
    calculate_name_similarity a b = 1 := by
  simp [calculate_name_similarity, ha, hb, h]

/-- C10 witness: "!!!" and "???" are non-empty, both normalize to "", and
receive similarity 1.0. -/
theorem c10_witness : calculate_name_similarity "!!!" "???" = 1 :=
  c10_equal_normalization_gives_one "!!!" "???" (by decide) (by decide) (by decide)
